import Mathlib

/-!
Shallow embedding of the test-composition and scoring engine of the
skill-navigator repository: question selection (`DiagnosticTest.initTest`),
scoring (`DiagnosticTest.handleSubmit`), and result persistence
(`lib/testResults.saveTestResults`), together with theorems settling the
specification claims about them.

JS numbers are modelled by exact arithmetic (`Nat` / `Int` / `ℚ`); the NaN
produced by `0 / 0` is modelled by `Option.none`.  The random shuffle of
`initTest` is modelled by an explicit `shuffle` function parameter assumed to
permute its input, and the wall clock by an explicit `now : String` parameter.
-/

namespace SkillNav

/-- The `Question` record of `DiagnosticTest.tsx`: id, category, topic, prompt,
ordered option texts, the correct answer stored as literal option text, and an
optional difficulty label. -/
structure Question where
  id : String
  category : String
  topic : String
  question : String
  options : List String
  correct_answer : String
  difficulty : Option String
deriving DecidableEq

/-- The `QUESTIONS_PER_TEST` constant of `DiagnosticTest.tsx`. -/
def QUESTIONS_PER_TEST : Nat := 50

/-- The selection logic of `initTest` in `DiagnosticTest.tsx`:
filter out already-answered question ids; if fewer than `n` remain, fall back
to the full pool; shuffle; then `slice(0, Math.min(n, length))`.  The random
`sort(() => Math.random() - 0.5)` is modelled by the `shuffle` parameter
(assumed, in the theorems, to permute its input). -/
def selectTest (pool : List Question) (answeredIds : List String) (n : Nat)
    (shuffle : List Question → List Question) : List Question :=
  let availableQuestions := pool.filter (fun q => !(answeredIds.contains q.id))
  let availableQuestions :=
    if availableQuestions.length < n then pool else availableQuestions
  let shuffled := shuffle availableQuestions
  shuffled.take (min n shuffled.length)

/-- The selected option text `q.options[answers[index]]` of `handleSubmit`:
`none` models the JS `undefined` obtained for a missing answer or an
out-of-range index. -/
def selectedText (q : Question) (a : Option Nat) : Option String :=
  a.bind (fun i => q.options.get? i)

/-- `selectedOptionText === q.correct_answer` from `handleSubmit`: exact string
equality, with `undefined` never equal to a string. -/
def isCorrectAt (q : Question) (a : Option Nat) : Bool :=
  selectedText q a == some q.correct_answer

/-- One step of the `categoryResults` accumulation of `handleSubmit`: a keyed
record in first-seen key order; `total` is incremented for every question of
the category and `correct` additionally for a correctly answered one.  An
entry is `(category, correct, total)`. -/
def bumpTally : List (String × Nat × Nat) → String → Bool →
    List (String × Nat × Nat)
  | [], cat, corr => [(cat, if corr then 1 else 0, 1)]
  | (c, k, t) :: rest, cat, corr =>
      if c = cat then (c, k + (if corr then 1 else 0), t + 1) :: rest
      else (c, k, t) :: bumpTally rest cat corr

/-- The `questions.forEach` loop of `handleSubmit` building `categoryResults`,
with the accumulator explicit; a missing answer reads as `undefined` (still
counted in `total`, never in `correct`), as in the source. -/
def tallyAux : List (String × Nat × Nat) → List Question →
    List (Option Nat) → List (String × Nat × Nat)
  | acc, [], _ => acc
  | acc, q :: qs, ans =>
      tallyAux (bumpTally acc q.category (isCorrectAt q (ans.headD none)))
        qs ans.tail

/-- The full `categoryResults` record of `handleSubmit`. -/
def tallyCategories (qs : List Question) (answers : List (Option Nat)) :
    List (String × Nat × Nat) :=
  tallyAux [] qs answers

/-- `questions.filter((q, index) => selected === correct).length` of
`handleSubmit`: the number of correctly answered questions. -/
def countCorrect : List Question → List (Option Nat) → Nat
  | [], _ => 0
  | q :: qs, ans =>
      (if isCorrectAt q (ans.headD none) then 1 else 0) +
        countCorrect qs ans.tail

/-- `Math.round((c / t) * 100)` under exact rational semantics of JS numbers:
`Math.round` rounds half toward positive infinity, so for `t ≠ 0` the value is
`⌊100 * c / t + 1/2⌋`, computed here by the equivalent integer formula
`(200 * c + t) / (2 * t)` (the equivalence is proved in
`jsRoundPct_eq_roundHalfUp`); for `t = 0` the JS expression is `NaN`, modelled
as `none`.  This is an exact-arithmetic idealization: the binary64-faithful
model is `jsRoundPctFP` below, which diverges from this idealization at
half-way tallies such as 23 of 40 (57 instead of 58). -/
def jsRoundPct (c t : Nat) : Option Int :=
  if t = 0 then none else some (((200 * c + t) / (2 * t) : Nat) : Int)

/-- The `results` object built by `handleSubmit` (and the `TestResults` shape
of `lib/testResults.ts`).  `totalScore` is `Option Int` because `0 / 0`
produces `NaN` in JS. -/
structure TestResults where
  totalScore : Option Int
  totalCorrect : Nat
  totalQuestions : Nat
  categoryResults : List (String × Nat × Nat)
  date : String
deriving DecidableEq

/-- The error taxonomy the specification assigns to `scoreSubmission`. -/
inductive ScoreError where
  | IncompleteSubmission
  | EmptyQuestionSet
deriving DecidableEq

/-- The scoring portion of `handleSubmit` in `DiagnosticTest.tsx`: reject the
submission when any answer is still `null`, otherwise build `categoryResults`,
`totalCorrect` and the `results` object; `date` (`new Date().toISOString()`)
is passed explicitly as `now`.  `EmptyQuestionSet` belongs to the specified
taxonomy but is never produced: the code has no zero-length guard in the
scoring path. -/
def scoreSubmission (qs : List Question) (answers : List (Option Nat))
    (now : String) : Except ScoreError TestResults :=
  if 0 < (answers.filter (fun a => a.isNone)).length then
    .error .IncompleteSubmission
  else
    let totalCorrect := countCorrect qs answers
    .ok { totalScore := jsRoundPct totalCorrect qs.length,
          totalCorrect := totalCorrect,
          totalQuestions := qs.length,
          categoryResults := tallyCategories qs answers,
          date := now }

/-- The spec formula `round(100 * correct_count / total_count)` with
round-half-up rounding, stated over exact rationals. -/
def roundHalfUp (c t : Nat) : Int := ⌊(100 * c : ℚ) / t + 1 / 2⌋

/-- Rounds a rational to the nearest integer, ties to even — the rounding of
IEEE-754 binary64 arithmetic. -/
def roundTiesEven (q : ℚ) : ℤ :=
  if q - ⌊q⌋ < 1/2 then ⌊q⌋
  else if 1/2 < q - ⌊q⌋ then ⌊q⌋ + 1
  else if 2 ∣ ⌊q⌋ then ⌊q⌋ else ⌊q⌋ + 1

/-- The IEEE-754 binary64 value nearest to a nonnegative rational: the
significand is rounded to 53 bits at the exponent fixed by `Int.log 2`
(round-to-nearest, ties-to-even).  Overflow and subnormals cannot arise for
the magnitudes occurring in the scoring computation. -/
def fl (q : ℚ) : ℚ :=
  if q = 0 then 0
  else (roundTiesEven (q * 2 ^ (52 - Int.log 2 q)) : ℚ) *
    2 ^ (Int.log 2 q - 52)

/-- `Math.round((c / t) * 100)` under faithful binary64 semantics: the
quotient `c / t` and the product `· * 100` are each correctly rounded doubles
(`fl`), and `Math.round` then takes the floor of the exact double value plus
one half; for `t = 0` the JS expression is `NaN`, modelled as `none`. -/
def jsRoundPctFP (c t : Nat) : Option Int :=
  if t = 0 then none
  else some ⌊fl (fl ((c : ℚ) / t) * 100) + 1 / 2⌋

/-- One element of `categoryData` in `saveTestResults`
(`lib/testResults.ts`): the percentage via `Math.round`, and classification on
the rounded percentage (a `NaN` percentage compares false against both
thresholds, as in JS). -/
structure CategoryEntry where
  name : String
  correct : Nat
  total : Nat
  percentage : Option Int
  isStrong : Bool
  isWeak : Bool
deriving DecidableEq

/-- Builds one `categoryData` entry of `saveTestResults` from a category name
and its `(correct, total)` tally. -/
def catEntry (name : String) (c t : Nat) : CategoryEntry :=
  let p := jsRoundPct c t
  { name := name, correct := c, total := t, percentage := p,
    isStrong := match p with | some v => decide (70 ≤ v) | none => false,
    isWeak := match p with | some v => decide (v < 50) | none => false }

/-- The error a failed `test_results` insert surfaces (the supabase error the
code throws). -/
inductive DbError where
  | insertFailed
deriving DecidableEq

/-- One row inserted into `test_results` by `saveTestResults`. -/
structure SnapshotRow where
  user_id : String
  category : String
  score : Nat
  total_questions : Nat
  accuracy : Option Int
  weak_topics : List String
  strong_topics : List String
deriving DecidableEq

/-- `saveTestResults` of `lib/testResults.ts`, with the store's behaviour made
explicit: `overallFails` says whether the insert of the "Overall" row fails
(the code then throws the error), `catFails i` whether the i-th per-category
insert would fail (the code never inspects those results).  Returns the list
of insert attempts actually issued, in order, together with the overall
outcome (the `throw` modelled as `.error`). -/
def saveTestResults (results : TestResults) (userId : String)
    (overallFails : Bool) (catFails : Nat → Bool) :
    List SnapshotRow × Except DbError SnapshotRow :=
  let categoryData :=
    results.categoryResults.map (fun e => catEntry e.1 e.2.1 e.2.2)
  let weakTopics := (categoryData.filter (fun c => c.isWeak)).map
    (fun c => c.name)
  let strongTopics := (categoryData.filter (fun c => c.isStrong)).map
    (fun c => c.name)
  let overallRow : SnapshotRow :=
    { user_id := userId, category := "Overall",
      score := results.totalCorrect,
      total_questions := results.totalQuestions,
      accuracy := results.totalScore,
      weak_topics := weakTopics, strong_topics := strongTopics }
  if overallFails then
    ([overallRow], .error .insertFailed)
  else
    let catRows := categoryData.map (fun c =>
      { user_id := userId, category := c.name, score := c.correct,
        total_questions := c.total, accuracy := c.percentage,
        weak_topics := if c.isWeak then [c.name] else [],
        strong_topics := if c.isStrong then [c.name] else [] })
    (overallRow :: catRows, .ok overallRow)

/-- The observable writes `handleSubmit` can issue. -/
inductive Effect where
  | saveLocal (results : TestResults)
  | insertAnswer (userId questionId : String) (selectedOption : Option String)
      (isCorrect : Bool)
  | insertSnapshot (row : SnapshotRow)
deriving DecidableEq

/-- The `for` loop of `handleSubmit` inserting one `user_answers` row per
question. -/
def answerEffects (uid : String) : List Question → List (Option Nat) →
    List Effect
  | [], _ => []
  | q :: qs, ans =>
      Effect.insertAnswer uid q.id (selectedText q (ans.headD none))
          (isCorrectAt q (ans.headD none)) ::
        answerEffects uid qs ans.tail

/-- `handleSubmit` of `DiagnosticTest.tsx` as a function from the submission
state to the attempted writes and the computed results: the incomplete guard
returns early with no writes; otherwise the results are computed, cached
locally, each answer inserted, and `saveTestResults` invoked (its throw on
Overall failure is caught, so submission still completes with the locally
cached results). -/
def handleSubmit (qs : List Question) (answers : List (Option Nat))
    (userId : Option String) (overallFails : Bool) (catFails : Nat → Bool)
    (now : String) : List Effect × Option TestResults :=
  match scoreSubmission qs answers now with
  | .error _ => ([], none)
  | .ok results =>
      match userId with
      | some uid =>
          let snapRows := (saveTestResults results uid overallFails catFails).1
          (Effect.saveLocal results ::
              (answerEffects uid qs answers ++
                snapRows.map Effect.insertSnapshot),
            some results)
      | none => ([Effect.saveLocal results], some results)

/-- A concrete sample question used by witness theorems. -/
def sampleQ : Question :=
  { id := "q1", category := "Quantitative", topic := "arith",
    question := "2+2?", options := ["3", "4"], correct_answer := "4",
    difficulty := none }

/-- C2: for every pool, answered set and target size, `selectTest` returns a
sequence of exactly `min n pool.length` questions, provided `shuffle` permutes
its input (as the random sort does).  In particular when fewer than `n`
unanswered questions remain the exclusion is discarded and the selection draws
from the full pool. -/
theorem selectTest_length_min (pool : List Question) (answeredIds : List String)
    (n : Nat) (shuffle : List Question → List Question)
    (hperm : ∀ l, (shuffle l).Perm l) :
    (selectTest pool answeredIds n shuffle).length = min n pool.length := by
  have hfle : (pool.filter (fun q => !(answeredIds.contains q.id))).length ≤
      pool.length := List.length_filter_le _ _
  simp only [selectTest]
  by_cases h : (pool.filter (fun q => !(answeredIds.contains q.id))).length < n
  · simp only [if_pos h, List.length_take, (hperm pool).length_eq]
    omega
  · simp only [if_neg h, List.length_take, (hperm _).length_eq]
    omega

/-- Witness for C2 at a concrete pool of two questions, target 1, identity
shuffle. -/
theorem selectTest_length_min_witness :
    (selectTest
      [⟨"a", "Cat", "t", "p", ["x", "y"], "x", none⟩,
       ⟨"b", "Cat", "t", "p", ["x", "y"], "y", none⟩]
      ["a"] 1 id).length = min 1 2 :=
  selectTest_length_min _ _ 1 id (fun l => List.Perm.refl l)

/-- C3: when at least `n` unanswered questions remain in the pool, every
question returned by `selectTest` has an id absent from the answered set. -/
theorem selectTest_excludes_answered (pool : List Question)
    (answeredIds : List String) (n : Nat)
    (shuffle : List Question → List Question)
    (hperm : ∀ l, (shuffle l).Perm l)
    (h : n ≤ (pool.filter (fun q => !(answeredIds.contains q.id))).length) :
    ∀ q ∈ selectTest pool answeredIds n shuffle, q.id ∉ answeredIds := by
  intro q hq
  simp only [selectTest, if_neg (Nat.not_lt.mpr h)] at hq
  have hmem : q ∈ pool.filter (fun q => !(answeredIds.contains q.id)) :=
    ((hperm _).mem_iff).mp (List.mem_of_mem_take hq)
  have hpred := List.of_mem_filter hmem
  rw [Bool.not_eq_true'] at hpred
  simpa using hpred

/-- Witness for C3: with one answered question and one fresh question, the
single selected question is not previously answered. -/
theorem selectTest_excludes_answered_witness :
    1 ≤ (([⟨"a", "Cat", "t", "p", ["x", "y"], "x", none⟩,
           ⟨"b", "Cat", "t", "p", ["x", "y"], "y", none⟩] :
          List Question).filter
            (fun q => !(["a"].contains q.id))).length ∧
    ∀ q ∈ selectTest
        [⟨"a", "Cat", "t", "p", ["x", "y"], "x", none⟩,
         ⟨"b", "Cat", "t", "p", ["x", "y"], "y", none⟩] ["a"] 1 id,
      q.id ∉ ["a"] :=
  ⟨by decide,
   selectTest_excludes_answered _ _ 1 id (fun l => List.Perm.refl l) (by decide)⟩

/-- C10: if the pool's question ids are pairwise distinct, the selected
sequence contains no question more than once and every selected question is a
member of the pool. -/
theorem selectTest_nodup_and_mem (pool : List Question)
    (answeredIds : List String) (n : Nat)
    (shuffle : List Question → List Question)
    (hperm : ∀ l, (shuffle l).Perm l)
    (hids : (pool.map Question.id).Nodup) :
    (selectTest pool answeredIds n shuffle).Nodup ∧
      ∀ q ∈ selectTest pool answeredIds n shuffle, q ∈ pool := by
  have hpool : pool.Nodup := hids.of_map _
  have hbase : (if (pool.filter (fun q => !(answeredIds.contains q.id))).length < n
      then pool else pool.filter (fun q => !(answeredIds.contains q.id))).Nodup := by
    split
    · exact hpool
    · exact hpool.filter _
  constructor
  · simp only [selectTest]
    exact ((hperm _).nodup_iff.mpr hbase).sublist (List.take_sublist _ _)
  · intro q hq
    simp only [selectTest] at hq
    have hmem := ((hperm _).mem_iff).mp (List.mem_of_mem_take hq)
    revert hmem
    split
    · exact fun hmem => hmem
    · exact fun hmem => List.mem_of_mem_filter hmem

/-- Witness for C10 at a concrete two-question pool with distinct ids. -/
theorem selectTest_nodup_and_mem_witness :
    (([⟨"a", "Cat", "t", "p", ["x", "y"], "x", none⟩,
       ⟨"b", "Cat", "t", "p", ["x", "y"], "y", none⟩] :
        List Question).map Question.id).Nodup ∧
    (selectTest
      [⟨"a", "Cat", "t", "p", ["x", "y"], "x", none⟩,
       ⟨"b", "Cat", "t", "p", ["x", "y"], "y", none⟩] ["a"] 1 id).Nodup ∧
    ∀ q ∈ selectTest
        [⟨"a", "Cat", "t", "p", ["x", "y"], "x", none⟩,
         ⟨"b", "Cat", "t", "p", ["x", "y"], "y", none⟩] ["a"] 1 id,
      q ∈ [⟨"a", "Cat", "t", "p", ["x", "y"], "x", none⟩,
           ⟨"b", "Cat", "t", "p", ["x", "y"], "y", none⟩] := by
  refine ⟨by decide, ?_⟩
  have h := selectTest_nodup_and_mem
    [⟨"a", "Cat", "t", "p", ["x", "y"], "x", none⟩,
     ⟨"b", "Cat", "t", "p", ["x", "y"], "y", none⟩]
    ["a"] 1 id (fun l => List.Perm.refl l) (by decide)
  exact ⟨h.1, h.2⟩

/-- The incomplete guard of `handleSubmit` fires exactly when an answer is
still `null`. -/
theorem incomplete_guard_iff (answers : List (Option Nat)) :
    0 < (answers.filter (fun a => a.isNone)).length ↔
      ∃ a ∈ answers, a = none := by
  rw [← List.countP_eq_length_filter, List.countP_pos_iff]
  simp

/-- The integer formula of `jsRoundPct` agrees with round-half-up of
`100 * c / t` whenever the denominator is nonzero. -/
theorem jsRoundPct_eq_roundHalfUp (c t : Nat) (ht : t ≠ 0) :
    jsRoundPct c t = some (roundHalfUp c t) := by
  have ht' : (t : ℚ) ≠ 0 := Nat.cast_ne_zero.mpr ht
  have h1 : (100 * c : ℚ) / t + 1 / 2 =
      ((200 * c + t : Nat) : ℚ) / ((2 * t : Nat) : ℚ) := by
    push_cast
    field_simp
    ring
  rw [jsRoundPct, if_neg ht, roundHalfUp, h1,
    ← Int.natCast_floor_eq_floor (by positivity), Nat.floor_div_eq_div]

/-- Every entry produced by `bumpTally` has a positive total, provided every
entry of the accumulator does. -/
theorem bumpTally_total_pos (acc : List (String × Nat × Nat)) (cat : String)
    (corr : Bool) (h : ∀ e ∈ acc, 0 < e.2.2) :
    ∀ e ∈ bumpTally acc cat corr, 0 < e.2.2 := by
  induction acc with
  | nil =>
      intro e he
      simp only [bumpTally, List.mem_singleton] at he
      subst he
      exact Nat.one_pos
  | cons hd tl ih =>
      obtain ⟨c, k, t⟩ := hd
      intro e he
      simp only [bumpTally] at he
      by_cases hc : c = cat
      · rw [if_pos hc] at he
        rcases List.mem_cons.mp he with he | he
        · subst he; exact Nat.succ_pos t
        · exact h e (List.mem_cons_of_mem _ he)
      · rw [if_neg hc] at he
        rcases List.mem_cons.mp he with he | he
        · subst he; exact h (c, k, t) (List.mem_cons_self _ _)
        · exact ih (fun e' he' => h e' (List.mem_cons_of_mem _ he')) e he

/-- Every entry of the category tally has a positive total. -/
theorem tallyAux_total_pos (qs : List Question) :
    ∀ (ans : List (Option Nat)) (acc : List (String × Nat × Nat)),
      (∀ e ∈ acc, 0 < e.2.2) → ∀ e ∈ tallyAux acc qs ans, 0 < e.2.2 := by
  induction qs with
  | nil => intro ans acc h e he; exact h e he
  | cons q qs ih =>
      intro ans acc h e he
      exact ih ans.tail _ (bumpTally_total_pos acc q.category _ h) e he

/-- For parallel sequences, `countCorrect` counts the zipped pairs whose
selected option is correct. -/
theorem countCorrect_eq_zip (qs : List Question) :
    ∀ ans : List (Option Nat), ans.length = qs.length →
      countCorrect qs ans =
        ((qs.zip ans).filter (fun p => isCorrectAt p.1 p.2)).length := by
  induction qs with
  | nil => intro ans _; simp [countCorrect]
  | cons q qs ih =>
      intro ans h
      cases ans with
      | nil => simp at h
      | cons a as =>
          have h' : as.length = qs.length := by simpa using h
          simp only [countCorrect, List.headD_cons, List.tail_cons,
            List.zip_cons_cons, List.filter_cons]
          rw [ih as h']
          by_cases hc : isCorrectAt q a <;> simp [hc] <;> omega

/-- C6: per-question correctness holds exactly when the selected option text
matches the stored correct answer character for character — plain string
equality with no whitespace or case normalization on either side. -/
theorem isCorrectAt_iff_exact (q : Question) (a : Option Nat) :
    isCorrectAt q a = true ↔
      ∃ s, selectedText q a = some s ∧ s.data = q.correct_answer.data := by
  simp only [isCorrectAt, beq_iff_eq]
  constructor
  · intro h; exact ⟨q.correct_answer, h, rfl⟩
  · rintro ⟨s, hs, hdata⟩
    rw [hs, String.ext hdata]

/-- C7 counterexample: scoring a zero-length submission does not fail with
`EmptyQuestionSet`; no such guard exists in the scoring code, which instead
produces a results object whose total score is the `NaN` of `0 / 0`. -/
theorem scoreSubmission_empty_not_error :
    scoreSubmission [] [] "d" ≠ Except.error ScoreError.EmptyQuestionSet ∧
    scoreSubmission [] [] "d" =
      Except.ok { totalScore := none, totalCorrect := 0, totalQuestions := 0,
                  categoryResults := [], date := "d" } := by
  refine ⟨fun h => ?_, rfl⟩
  rw [show scoreSubmission [] [] "d" =
      Except.ok { totalScore := none, totalCorrect := 0, totalQuestions := 0,
                  categoryResults := [], date := "d" } from rfl] at h
  exact Except.noConfusion h

/-- C7 amended: a zero-length submission is not rejected by the scoring code.
It passes the incompleteness guard vacuously and yields a results object whose
`totalScore` is the non-numeric `0 / 0` (`NaN`, modelled `none`); the empty
case is only guarded upstream, where the page refuses to render a test with no
questions. -/
theorem scoreSubmission_empty (now : String) :
    scoreSubmission [] [] now =
      Except.ok { totalScore := none, totalCorrect := 0, totalQuestions := 0,
                  categoryResults := [], date := now } := rfl

/-- C9 counterexample: two invocations of the scoring computation on identical
questions and identical selected options, made at different wall-clock
instants, produce outputs that are not identical (the `date` field differs),
so the output is not byte-identical across calls. -/
theorem scoreSubmission_not_identical_across_calls :
    scoreSubmission [sampleQ] [some 1] "2025-01-01T00:00:00.000Z" ≠
      scoreSubmission [sampleQ] [some 1] "2025-01-01T00:00:01.000Z" := by
  intro h
  have hd := congrArg
    (fun r => match r with | Except.ok v => v.date | Except.error _ => "") h
  simp only [show scoreSubmission [sampleQ] [some 1]
        "2025-01-01T00:00:00.000Z" =
      Except.ok { totalScore := some 100, totalCorrect := 1,
                  totalQuestions := 1,
                  categoryResults := [("Quantitative", 1, 1)],
                  date := "2025-01-01T00:00:00.000Z" } from rfl,
    show scoreSubmission [sampleQ] [some 1] "2025-01-01T00:00:01.000Z" =
      Except.ok { totalScore := some 100, totalCorrect := 1,
                  totalQuestions := 1,
                  categoryResults := [("Quantitative", 1, 1)],
                  date := "2025-01-01T00:00:01.000Z" } from rfl] at hd
  exact absurd hd (by decide)

/-- Erases the timestamp of a results object. -/
def eraseDate (r : TestResults) : TestResults := { r with date := "" }

/-- C9 amended: the scoring computation is deterministic in everything except
the `date` field, which records the invocation time
(`new Date().toISOString()`): two calls with identical questions and identical
selected options agree exactly after erasing `date`, and hence on every score
field. -/
theorem scoreSubmission_deterministic_up_to_date (qs : List Question)
    (answers : List (Option Nat)) (t1 t2 : String) :
    (scoreSubmission qs answers t1).map eraseDate =
      (scoreSubmission qs answers t2).map eraseDate := by
  simp only [scoreSubmission]
  split <;> rfl

/-- C5: classification happens on the rounded percentage with fixed
thresholds: a category entry is strong exactly when its rounded percentage is
at least 70 and weak exactly when it is below 50; in particular a rounded
percentage of exactly 70 is strong, exactly 50 is neither strong nor weak, and
exactly 49 is weak. -/
theorem classification_thresholds (name : String) (c t : Nat) (p : Int)
    (hp : jsRoundPct c t = some p) :
    ((catEntry name c t).isStrong = true ↔ 70 ≤ p) ∧
    ((catEntry name c t).isWeak = true ↔ p < 50) ∧
    (p = 70 → (catEntry name c t).isStrong = true) ∧
    (p = 50 → (catEntry name c t).isStrong = false ∧
      (catEntry name c t).isWeak = false) ∧
    (p = 49 → (catEntry name c t).isWeak = true) := by
  have hs : (catEntry name c t).isStrong = decide (70 ≤ p) := by
    simp [catEntry, hp]
  have hw : (catEntry name c t).isWeak = decide (p < 50) := by
    simp [catEntry, hp]
  refine ⟨?_, ?_, fun h => ?_, fun h => ⟨?_, ?_⟩, fun h => ?_⟩ <;>
    simp [hs, hw] <;> omega

/-- Witness for C5: 7 of 10 rounds to exactly 70 and is classified strong. -/
theorem classification_thresholds_witness :
    jsRoundPct 7 10 = some 70 ∧
    (catEntry "Quantitative" 7 10).isStrong = true :=
  ⟨rfl, (classification_thresholds "Quantitative" 7 10 70 rfl).2.2.1 rfl⟩

/-- Rounding to nearest (any tie policy between the two neighbours) moves a
rational by at most one half. -/
theorem roundTiesEven_err (q : ℚ) : |(roundTiesEven q : ℚ) - q| ≤ 1/2 := by
  have h1 : ((⌊q⌋ : ℤ) : ℚ) ≤ q := Int.floor_le q
  have h2 : q < ⌊q⌋ + 1 := Int.lt_floor_add_one q
  rw [roundTiesEven]
  split_ifs with ha hb hc
  · rw [abs_sub_le_iff]
    constructor <;> linarith
  · rw [abs_sub_le_iff]
    push_cast
    constructor <;> linarith
  · rw [abs_sub_le_iff]
    constructor <;> linarith
  · rw [abs_sub_le_iff]
    push_cast
    constructor <;> linarith

/-- Evaluation of `roundTiesEven` when the value sits strictly below the half
boundary above `n`. -/
theorem roundTiesEven_eval_lt (q : ℚ) (n : ℤ) (h1 : (n:ℚ) ≤ q)
    (h2 : q < n + 1/2) : roundTiesEven q = n := by
  have hf : ⌊q⌋ = n := Int.floor_eq_iff.mpr ⟨h1, by linarith⟩
  rw [roundTiesEven, if_pos]
  · exact hf
  · rw [hf]
    linarith

/-- Pins the value of `Int.log 2` by the two power bounds. -/
theorem int_log2_eq (q : ℚ) (e : ℤ) (hq : 0 < q) (h1 : (2:ℚ) ^ e ≤ q)
    (h2 : q < (2:ℚ) ^ (e + 1)) : Int.log 2 q = e := by
  have hc : ((2:ℕ) : ℚ) = (2:ℚ) := by norm_num
  have ha : e ≤ Int.log 2 q := by
    rw [← Int.zpow_le_iff_le_log (by norm_num) hq, hc]
    exact h1
  have hb : Int.log 2 q < e + 1 := by
    rw [← Int.lt_zpow_iff_log_lt (by norm_num) hq, hc]
    exact h2
  omega

/-- Evaluation of `fl` from the exponent and the rounded significand. -/
theorem fl_eval (q : ℚ) (e : ℤ) (m : ℤ) (hq : q ≠ 0)
    (hlog : Int.log 2 q = e) (hm : roundTiesEven (q * 2 ^ (52 - e)) = m) :
    fl q = (m : ℚ) * 2 ^ (e - 52) := by
  rw [fl, if_neg hq, hlog, hm]

/-- Correct rounding to 53 bits has relative error at most `2 ^ (-53)`, and
preserves positivity. -/
theorem fl_bounds (q : ℚ) (hq : 0 < q) :
    |fl q - q| ≤ q / 2 ^ (53:ℤ) ∧ 0 < fl q := by
  rw [fl, if_neg (ne_of_gt hq)]
  set e := Int.log 2 q with he
  set y := q * 2 ^ (52 - e) with hy
  have h2a : (0:ℚ) < 2 ^ (52 - e) := by positivity
  have h2b : (0:ℚ) < 2 ^ (e - 52) := by positivity
  have hqe : (2:ℚ) ^ e ≤ q := by
    have h := Int.zpow_log_le_self (b := 2) (by norm_num) hq
    rwa [show ((2:ℕ):ℚ) = (2:ℚ) by norm_num] at h
  have hcancel : (2:ℚ) ^ (52 - e) * (2:ℚ) ^ (e - 52) = 1 := by
    rw [← zpow_add₀ (by norm_num : (2:ℚ) ≠ 0),
      show 52 - e + (e - 52) = 0 by ring]
    exact zpow_zero 2
  have hyq : y * 2 ^ (e - 52) = q := by
    rw [hy, mul_assoc, hcancel, mul_one]
  have hylb : (2:ℚ) ^ (52:ℤ) ≤ y := by
    calc (2:ℚ) ^ (52:ℤ) = 2 ^ e * 2 ^ (52 - e) := by
          rw [← zpow_add₀ (by norm_num : (2:ℚ) ≠ 0),
            show e + (52 - e) = 52 by ring]
      _ ≤ q * 2 ^ (52 - e) := by
          exact mul_le_mul_of_nonneg_right hqe (le_of_lt h2a)
  have herr := roundTiesEven_err y
  have h52 : (4503599627370496:ℚ) ≤ y := by
    have : (2:ℚ) ^ (52:ℤ) = 4503599627370496 := by norm_num
    linarith
  constructor
  · have key : |(roundTiesEven y : ℚ) - y| ≤ y / 2 ^ (53:ℤ) := by
      refine herr.trans ?_
      rw [show (2:ℚ) ^ (53:ℤ) = 9007199254740992 by norm_num,
        le_div_iff₀ (by norm_num)]
      linarith
    calc |(roundTiesEven y : ℚ) * 2 ^ (e - 52) - q|
        = |(roundTiesEven y : ℚ) - y| * 2 ^ (e - 52) := by
          rw [← hyq, ← sub_mul, abs_mul, abs_of_pos h2b]
      _ ≤ (y / 2 ^ (53:ℤ)) * 2 ^ (e - 52) := by
          exact mul_le_mul_of_nonneg_right key (le_of_lt h2b)
      _ = q / 2 ^ (53:ℤ) := by
          rw [div_mul_eq_mul_div, hyq]
  · have hm : (0:ℚ) < (roundTiesEven y : ℚ) := by
      have := abs_le.mp herr
      linarith
    exact mul_pos hm h2b

/-- A perturbation below `1/200` cannot move `⌊· + 1/2⌋` when the unperturbed
value keeps distance `1/100` from every half boundary. -/
theorem floor_round_stable (x v : ℚ)
    (hdist : ∀ m : ℤ, 1/100 ≤ |x + 1/2 - m|) (hv : |v - x| ≤ 1/200) :
    ⌊v + 1/2⌋ = ⌊x + 1/2⌋ := by
  set n := ⌊x + 1/2⌋ with hn
  have hfl : ((n:ℤ):ℚ) ≤ x + 1/2 := Int.floor_le _
  have hfu : x + 1/2 < n + 1 := Int.lt_floor_add_one _
  have hd1 := hdist n
  have hd2 := hdist (n + 1)
  rw [abs_le] at hv
  have h1 : (1:ℚ)/100 ≤ x + 1/2 - n := by
    rcases abs_cases (x + 1/2 - (n:ℚ)) with ⟨heq, _⟩ | ⟨heq, _⟩ <;>
      rw [heq] at hd1 <;> linarith
  have h2 : x + 1/2 ≤ (n:ℚ) + 1 - 1/100 := by
    push_cast at hd2
    rcases abs_cases (x + 1/2 - ((n:ℚ) + 1)) with ⟨heq, _⟩ | ⟨heq, _⟩ <;>
      rw [heq] at hd2 <;> linarith
  refine Int.floor_eq_iff.mpr ⟨by linarith, by linarith⟩

/-- When the tally is not exactly half-way (`2t` does not divide `200c + t`)
and `t ≤ 50`, the exact percentage keeps distance `1/100` from every half
boundary. -/
theorem half_dist (c t : Nat) (ht : 0 < t) (ht50 : t ≤ 50)
    (hhalf : (200 * c + t) % (2 * t) ≠ 0) :
    ∀ m : ℤ, 1/100 ≤ |(100 * c : ℚ) / t + 1/2 - m| := by
  intro m
  have htQ : (0:ℚ) < t := by exact_mod_cast ht
  have ht50Q : (t:ℚ) ≤ 50 := by exact_mod_cast ht50
  have hN : 200 * (c:ℤ) + t - 2 * t * m ≠ 0 := by
    intro h
    have hdvd : ((2 * t : ℕ) : ℤ) ∣ ((200 * c + t : ℕ) : ℤ) :=
      ⟨m, by push_cast; linarith⟩
    exact hhalf (Nat.dvd_iff_mod_eq_zero.mp (Int.natCast_dvd_natCast.mp hdvd))
  have habs : (1:ℤ) ≤ |200 * (c:ℤ) + t - 2 * t * m| := by
    rcases hN.lt_or_lt with h | h
    · rw [abs_of_neg h]; omega
    · rw [abs_of_pos h]; omega
  have heq : (100 * c : ℚ) / t + 1/2 - m =
      ((200 * (c:ℤ) + t - 2 * t * m : ℤ) : ℚ) / (2 * t) := by
    push_cast
    field_simp
    ring
  rw [heq, abs_div, abs_of_pos (by linarith : (0:ℚ) < 2 * t)]
  rw [div_le_div_iff₀ (by norm_num) (by linarith)]
  have habsQ : (1:ℚ) ≤ |((200 * (c:ℤ) + t - 2 * t * m : ℤ) : ℚ)| := by
    rw [← Int.cast_abs]
    exact_mod_cast habs
  nlinarith [habsQ, ht50Q]

/-- Away from exact half-way tallies the binary64 computation agrees with
round-half-up of the exact percentage. -/
theorem jsRoundPctFP_eq_roundHalfUp (c t : Nat) (hct : c ≤ t) (ht50 : t ≤ 50)
    (ht : 0 < t) (hhalf : (200 * c + t) % (2 * t) ≠ 0) :
    jsRoundPctFP c t = some (roundHalfUp c t) := by
  have htQ : (0:ℚ) < t := by exact_mod_cast ht
  have htne : t ≠ 0 := Nat.pos_iff_ne_zero.mp ht
  rcases Nat.eq_zero_or_pos c with rfl | hc
  · have hfl0 : fl 0 = 0 := by rw [fl, if_pos rfl]
    rw [jsRoundPctFP, if_neg htne, roundHalfUp]
    simp only [Nat.cast_zero, zero_div, mul_zero, zero_mul, hfl0]
  · have hcQ : (0:ℚ) < c := by exact_mod_cast hc
    have hu : (0:ℚ) < (c:ℚ)/t := div_pos hcQ htQ
    have hle1 : (c:ℚ)/t ≤ 1 := by
      rw [div_le_one htQ]
      exact_mod_cast hct
    obtain ⟨h1, hp1⟩ := fl_bounds _ hu
    obtain ⟨h2, hp2⟩ := fl_bounds (fl ((c:ℚ)/t) * 100) (by positivity)
    rw [show (2:ℚ) ^ (53:ℤ) = 9007199254740992 by norm_num] at h1 h2
    rw [abs_le] at h1 h2
    have hcomb : |fl (fl ((c:ℚ)/t) * 100) - (100 * c : ℚ) / t| ≤ 1/200 := by
      have hx : (100 * c : ℚ) / t = ((c:ℚ)/t) * 100 := by ring
      rw [hx, abs_le]
      constructor <;> linarith [h1.1, h1.2, h2.1, h2.2]
    have hdist := half_dist c t ht ht50 hhalf
    have hfl := floor_round_stable ((100 * c : ℚ) / t) _ hdist hcomb
    rw [jsRoundPctFP, if_neg htne, roundHalfUp, hfl]

/-- The binary64 computation at the half-way tally 23 of 40: both roundings
land just below the boundary, so `Math.round` yields 57. -/
theorem jsRoundPctFP_half_low : jsRoundPctFP 23 40 = some 57 := by
  have hlog1 : Int.log 2 ((23:ℚ)/40) = -1 :=
    int_log2_eq _ _ (by norm_num) (by norm_num) (by norm_num)
  have hr1 : roundTiesEven ((23:ℚ)/40 * 2 ^ (52 - (-1) : ℤ)) =
      5179139571476070 :=
    roundTiesEven_eval_lt _ _ (by norm_num) (by norm_num)
  have h1 : fl ((23:ℚ)/40) = (5179139571476070 : ℚ) * 2 ^ ((-1) - 52 : ℤ) :=
    fl_eval _ _ _ (by norm_num) hlog1 hr1
  have hlog2 :
      Int.log 2 ((5179139571476070 : ℚ) * 2 ^ ((-1) - 52 : ℤ) * 100) = 5 :=
    int_log2_eq _ _ (by norm_num) (by norm_num) (by norm_num)
  have hr2 : roundTiesEven ((5179139571476070 : ℚ) * 2 ^ ((-1) - 52 : ℤ) *
      100 * 2 ^ (52 - 5 : ℤ)) = 8092405580431359 :=
    roundTiesEven_eval_lt _ _ (by norm_num) (by norm_num)
  have h2 : fl ((5179139571476070 : ℚ) * 2 ^ ((-1) - 52 : ℤ) * 100) =
      (8092405580431359 : ℚ) * 2 ^ (5 - 52 : ℤ) :=
    fl_eval _ _ _ (by norm_num) hlog2 hr2
  rw [jsRoundPctFP, if_neg (by norm_num)]
  simp only [Nat.cast_ofNat]
  rw [h1, h2]
  congr 1
  exact Int.floor_eq_iff.mpr ⟨by norm_num, by norm_num⟩

/-- Round-half-up of the exact 57.5 percent is 58. -/
theorem roundHalfUp_half_up : roundHalfUp 23 40 = 58 := by
  rw [roundHalfUp]
  simp only [Nat.cast_ofNat]
  exact Int.floor_eq_iff.mpr ⟨by norm_num, by norm_num⟩

/-- Every entry produced by `bumpTally` has `correct ≤ total`, provided every
entry of the accumulator does. -/
theorem bumpTally_le (acc : List (String × Nat × Nat)) (cat : String)
    (corr : Bool) (h : ∀ e ∈ acc, e.2.1 ≤ e.2.2) :
    ∀ e ∈ bumpTally acc cat corr, e.2.1 ≤ e.2.2 := by
  induction acc with
  | nil =>
      intro e he
      simp only [bumpTally, List.mem_singleton] at he
      subst he
      cases corr <;> simp
  | cons hd tl ih =>
      obtain ⟨c, k, t⟩ := hd
      intro e he
      simp only [bumpTally] at he
      by_cases hc : c = cat
      · rw [if_pos hc] at he
        rcases List.mem_cons.mp he with he | he
        · subst he
          have hk : k ≤ t := h (c, k, t) (List.mem_cons_self _ _)
          cases corr <;> simp <;> omega
        · exact h e (List.mem_cons_of_mem _ he)
      · rw [if_neg hc] at he
        rcases List.mem_cons.mp he with he | he
        · subst he
          exact h (c, k, t) (List.mem_cons_self _ _)
        · exact ih (fun e' he' => h e' (List.mem_cons_of_mem _ he')) e he

/-- Every entry of the category tally has `correct ≤ total`. -/
theorem tallyAux_le (qs : List Question) :
    ∀ (ans : List (Option Nat)) (acc : List (String × Nat × Nat)),
      (∀ e ∈ acc, e.2.1 ≤ e.2.2) → ∀ e ∈ tallyAux acc qs ans,
        e.2.1 ≤ e.2.2 := by
  induction qs with
  | nil => intro ans acc h e he; exact h e he
  | cons q qs ih =>
      intro ans acc h e he
      exact ih ans.tail _ (bumpTally_le acc q.category _ h) e he

/-- C4 counterexample: at the reachable tally of 23 correct out of 40 the
program computes `Math.round((23/40)*100)` over binary64 doubles as 57 — the
product `(23/40)*100` evaluates to the double 57.49999999999999, just below
the half boundary — while round-half-up of the exact 57.5 gives 58, so the
reported percentage differs from `round(100 * correct_count / total_count)`
under round-half-up. -/
theorem scoring_fp_half_boundary_counterexample :
    jsRoundPctFP 23 40 = some 57 ∧ roundHalfUp 23 40 = 58 ∧
    jsRoundPctFP 23 40 ≠ some (roundHalfUp 23 40) := by
  refine ⟨jsRoundPctFP_half_low, roundHalfUp_half_up, ?_⟩
  rw [jsRoundPctFP_half_low, roundHalfUp_half_up]
  intro h
  exact absurd (Option.some.inj h) (by decide)

/-- C4 amended: for every complete submission, `totalCorrect` counts exactly
the questions whose selected option text equals the stored correct answer,
and every category tally satisfies `correct ≤ total` with a positive total.
The reported percentage is `Math.round` of the binary64 evaluation of
`(correct / total) * 100`; for every tally with `total ≤ 50` (the test size
bound `QUESTIONS_PER_TEST`) whose exact percentage is not exactly half-way
between two integers, this equals round-half-up of `100 * correct / total`,
while at the half-way tally 23 of 40 the double computation lands just below
the boundary and reports 57 instead of the round-half-up 58. -/
theorem scoring_percentage_fp :
    (∀ c t : Nat, c ≤ t → t ≤ 50 → 0 < t → (200 * c + t) % (2 * t) ≠ 0 →
      jsRoundPctFP c t = some (roundHalfUp c t)) ∧
    jsRoundPctFP 23 40 = some 57 ∧
    roundHalfUp 23 40 = 58 ∧
    (∀ (qs : List Question) (answers : List (Option Nat)) (now : String)
        (r : TestResults), answers.length = qs.length →
      scoreSubmission qs answers now = Except.ok r →
      (∀ e ∈ r.categoryResults, e.2.1 ≤ e.2.2 ∧ 0 < e.2.2) ∧
      r.totalCorrect =
        ((qs.zip answers).filter (fun p => isCorrectAt p.1 p.2)).length ∧
      r.totalQuestions = qs.length) := by
  refine ⟨jsRoundPctFP_eq_roundHalfUp, jsRoundPctFP_half_low,
    roundHalfUp_half_up, ?_⟩
  intro qs answers now r hlen hr
  simp only [scoreSubmission] at hr
  by_cases hg : 0 < (answers.filter (fun a => a.isNone)).length
  · rw [if_pos hg] at hr
    exact Except.noConfusion hr
  · rw [if_neg hg] at hr
    have hr' := Except.ok.inj hr
    subst hr'
    refine ⟨?_, countCorrect_eq_zip qs answers hlen, rfl⟩
    intro e he
    exact ⟨tallyAux_le qs answers [] (by simp) e he,
      tallyAux_total_pos qs answers [] (by simp) e he⟩

/-- Witness for C4 at the tally 1 of 2 (exact percentage 50, not half-way)
and a one-question submission answered correctly. -/
theorem scoring_percentage_fp_witness :
    jsRoundPctFP 1 2 = some (roundHalfUp 1 2) ∧
    (1 : Nat) = (([sampleQ].zip [some 1]).filter
      (fun p => isCorrectAt p.1 p.2)).length := by
  have h := scoring_percentage_fp
  refine ⟨h.1 1 2 (by decide) (by decide) (by decide) (by decide), ?_⟩
  have h4 := h.2.2.2 [sampleQ] [some 1] "d"
    { totalScore := some 100, totalCorrect := 1, totalQuestions := 1,
      categoryResults := [("Quantitative", 1, 1)], date := "d" } rfl rfl
  exact h4.2.1

/-- C8: scoring fails with `IncompleteSubmission` exactly when some question
lacks a selected option, and on that failure `handleSubmit` performs no write
at all — no local cache, no answer insert, no snapshot insert — and computes
no results. -/
theorem incomplete_submission_rejected (qs : List Question)
    (answers : List (Option Nat)) (userId : Option String)
    (overallFails : Bool) (catFails : Nat → Bool) (now : String) :
    (scoreSubmission qs answers now =
        Except.error ScoreError.IncompleteSubmission ↔
      ∃ a ∈ answers, a = none) ∧
    ((∃ a ∈ answers, a = none) →
      handleSubmit qs answers userId overallFails catFails now =
        ([], none)) := by
  constructor
  · constructor
    · intro h
      by_contra hx
      have hg : ¬ 0 < (answers.filter (fun a => a.isNone)).length :=
        fun hg => hx ((incomplete_guard_iff answers).mp hg)
      simp only [scoreSubmission, if_neg hg] at h
      exact Except.noConfusion h
    · intro hx
      simp only [scoreSubmission,
        if_pos ((incomplete_guard_iff answers).mpr hx)]
  · intro hx
    simp only [handleSubmit, scoreSubmission,
      if_pos ((incomplete_guard_iff answers).mpr hx)]

/-- Witness for C8: a single unanswered question is rejected with no writes. -/
theorem incomplete_submission_rejected_witness :
    handleSubmit [sampleQ] [none] (some "u") false (fun _ => false) "d" =
      ([], none) :=
  (incomplete_submission_rejected [sampleQ] [none] (some "u") false
      (fun _ => false) "d").2 ⟨none, List.mem_singleton.mpr rfl, rfl⟩

/-- C1 counterexample: when the insert of the "Overall" snapshot fails, the
code throws at once — the only attempted write is the Overall row, no
per-category snapshot write is attempted, refuting best-effort continuation. -/
theorem saveTestResults_overall_failure_counterexample :
    (saveTestResults
        { totalScore := some 100, totalCorrect := 1, totalQuestions := 1,
          categoryResults := [("Quantitative", 1, 1)], date := "d" }
        "u" true (fun _ => false)).1 =
      [{ user_id := "u", category := "Overall", score := 1,
         total_questions := 1, accuracy := some 100, weak_topics := [],
         strong_topics := ["Quantitative"] }] ∧
    (saveTestResults
        { totalScore := some 100, totalCorrect := 1, totalQuestions := 1,
          categoryResults := [("Quantitative", 1, 1)], date := "d" }
        "u" true (fun _ => false)).2 =
      Except.error DbError.insertFailed ∧
    ∀ row ∈ (saveTestResults
        { totalScore := some 100, totalCorrect := 1, totalQuestions := 1,
          categoryResults := [("Quantitative", 1, 1)], date := "d" }
        "u" true (fun _ => false)).1,
      row.category ≠ "Quantitative" := by
  refine ⟨rfl, rfl, ?_⟩
  intro row hrow
  rcases List.mem_singleton.mp hrow with rfl
  decide

/-- C1 amended: if the Overall snapshot write fails, `saveTestResults` throws
that error and attempts no per-category write; only when the Overall write
succeeds are the per-category writes attempted, and then every category's
write is issued, independently of the outcomes of the individual category
inserts (the code never inspects them). -/
theorem saveTestResults_failure_policy (results : TestResults)
    (userId : String) (catFails catFails' : Nat → Bool) :
    ((saveTestResults results userId true catFails).1.length = 1 ∧
     (∀ row ∈ (saveTestResults results userId true catFails).1,
        row.category = "Overall") ∧
     (saveTestResults results userId true catFails).2 =
        Except.error DbError.insertFailed) ∧
    ((saveTestResults results userId false catFails).1.length =
        1 + results.categoryResults.length ∧
     (∀ e ∈ results.categoryResults,
        ∃ row ∈ (saveTestResults results userId false catFails).1,
          row.category = e.1) ∧
     saveTestResults results userId false catFails =
        saveTestResults results userId false catFails') := by
  refine ⟨⟨rfl, ?_, rfl⟩, ?_, ?_, rfl⟩
  · intro row hrow
    rcases List.mem_singleton.mp hrow with rfl
    rfl
  · simp only [saveTestResults, if_neg Bool.false_ne_true, List.length_cons,
      List.length_map]
    omega
  · intro e he
    refine ⟨_, List.mem_cons_of_mem _
      (List.mem_map_of_mem _ (List.mem_map_of_mem _ he)), rfl⟩

end SkillNav
